import Mathlib

/-!
Verification development for the clash_manager configuration engine
(src/config_manager.py).  The diff/merge engine is embedded shallowly:

* A proxy group is a Python dict with a `name` key, a `proxies` key
  (a list; a missing `proxies` key is modelled as the empty list, which is
  how every read of it in the source treats it via `.get("proxies", [])`),
  and arbitrary further keys with opaque scalar values.  The extra keys are
  modelled as an association list `fields`; a Python value `None` is
  modelled as `Option.none`, so `dict.get(k)` (which conflates an absent
  key with a `None` value) is `pyGet`.  Snapshot group names are unique
  (the data-model invariant; the source keys its dicts by name).
* Rules are plain strings (`str(r)` is the identity on them).
* `save_modification` is the pure diff core of
  `ConfigManager.save_modification` (timestamps, file naming and JSON
  serialisation omitted): it receives the two snapshots the Python code
  loads (`original_config` and `current_custom`) as arguments.
* `apply_modification` is the pure core of
  `ConfigManager.apply_modification`: it receives the parsed patch and the
  snapshot the code loads via `load_custom()` as arguments.  Note the
  source guards the group list with the misspelled key `"proxy_groups"`
  (`if "proxy_groups" not in custom: custom["proxy-groups"] = []`,
  line 421); a loaded custom snapshot only ever carries the hyphenated key
  `"proxy-groups"`, so this reset of the group list to `[]` always fires
  and is modelled as such.  The parallel guard for `"rules"` is spelled
  correctly and never fires on a loaded snapshot.
* `move_rule` is `ConfigManager.move_rule`; the Python list indexing that
  can raise `IndexError` before the boundary check is modelled with
  `Except` (the `.error` case is the uncaught exception).  Indices are
  natural numbers.
* `list(set(...))` produces the members of a set in an unspecified order;
  it is modelled as `List.dedup` of a list with the same members.
-/

namespace ClashManager

/-- A proxy group record: `name`, the `proxies` list, and the remaining
dict entries as an association list of opaque scalar values
(`none` models Python `None`). -/
structure Group where
  name : String
  proxies : List String
  fields : List (String × Option String)
deriving DecidableEq

/-- A recorded per-field change, `{"old": ..., "new": ...}` as produced by
`old_group.get(key)` / `new_group.get(key)` (absent and `None` coincide). -/
structure FieldChange where
  old : Option String
  new : Option String
deriving DecidableEq

/-- One entry of the patch's `proxy_groups.modified` list. -/
structure ModifiedGroup where
  name : String
  added_proxies : List String
  deleted_proxies : List String
  fields_changed : List (String × FieldChange)
  old : Group
  new : Group
deriving DecidableEq

/-- A `rules.modified` entry; the source only ever creates entries with
`"type": "reorder"`, and `apply_modification` ignores any other type, so
the type tag is not modelled. -/
structure Reorder where
  old_rules : List String
  new_rules : List String
deriving DecidableEq

/-- The `proxy_groups` change-set of a modification file. -/
structure GroupChanges where
  added : List Group
  modified : List ModifiedGroup
  deleted : List String
deriving DecidableEq

/-- The `rules` change-set of a modification file. -/
structure RuleChanges where
  added : List String
  modified : List Reorder
  deleted : List String
deriving DecidableEq

/-- A modification (patch) file's two change-sets (name, description and
timestamp metadata omitted). -/
structure Patch where
  proxy_groups : GroupChanges
  rules : RuleChanges
deriving DecidableEq

/-- A configuration snapshot: the `proxy-groups` list and the `rules`
list (passthrough top-level fields are not touched by the engine). -/
structure Snapshot where
  groups : List Group
  rules : List String
deriving DecidableEq

/-- A structured `{"success": ..., "message": ...}` result value. -/
structure OpResult where
  success : Bool
  message : String
deriving DecidableEq

/-- The `direction` argument of `move_rule`. -/
inductive Direction where
  | up
  | down
deriving DecidableEq

/-- Python `fields.get(k)`: the value stored at key `k`, with an absent key
and a stored `None` both giving `none`. -/
def pyGet (fs : List (String × Option String)) (k : String) : Option String :=
  match fs.find? (fun kv => decide (kv.1 = k)) with
  | some kv => kv.2
  | none => none

/-- Python dict lookup distinguishing an absent key (`none`) from a key
stored with value `None` (`some none`). -/
def dictGet (fs : List (String × Option String)) (k : String) :
    Option (Option String) :=
  (fs.find? (fun kv => decide (kv.1 = k))).map (fun kv => kv.2)

/-- Python dict equality on the open field maps: the same keys are present
and each key holds the same value. -/
def fieldsEq (a b : List (String × Option String)) : Bool :=
  a.all (fun kv => decide (dictGet b kv.1 = some kv.2)) &&
    b.all (fun kv => decide (dictGet a kv.1 = some kv.2))

/-- Python dict equality of two group records (`original_groups[name] !=
group`): name, the `proxies` list (order-sensitive, as Python list
equality is) and the remaining fields must all agree. -/
def groupEq (x y : Group) : Bool :=
  decide (x.name = y.name) && decide (x.proxies = y.proxies) &&
    fieldsEq x.fields y.fields

/-- Lookup of a group by name in a snapshot's group list (the source builds
`{g["name"]: g for g in ...}`; names are unique within a snapshot). -/
def findGroup (gs : List Group) (n : String) : Option Group :=
  gs.find? (fun g => decide (g.name = n))

/-- The `modified` entry built for a group present in both snapshots whose
records differ (`save_modification`, lines 248-277): set differences of the
proxies, and for every key of the old record other than `"proxies"` whose
`.get` value changed, an `{old, new}` pair.  A key present only in the new
record is never examined. -/
def mkModified (old new : Group) : ModifiedGroup :=
  { name := new.name
    added_proxies := (new.proxies.filter (fun p => decide (p ∉ old.proxies))).dedup
    deleted_proxies := (old.proxies.filter (fun p => decide (p ∉ new.proxies))).dedup
    fields_changed := old.fields.filterMap (fun kv =>
      if pyGet new.fields kv.1 = kv.2 then none
      else some (kv.1, ⟨kv.2, pyGet new.fields kv.1⟩))
    old := old
    new := new }

/-- The pure diff core of `ConfigManager.save_modification` (lines
236-330): `original_config` is the base snapshot, `current_custom` the
working snapshot.  Groups only in the working snapshot are `added`; groups
in both with unequal records give a `modified` entry; base-only names are
`deleted`.  Rules are diffed by string membership, and a single `reorder`
entry is recorded exactly when the two rule lists differ while neither
`added` nor `deleted` rules exist. -/
def save_modification (original_config current_custom : Snapshot) : Patch :=
  let original_groups := original_config.groups
  let current_groups := current_custom.groups
  let added_groups := current_groups.filter
    (fun g => (findGroup original_groups g.name).isNone)
  let modified_groups := current_groups.filterMap (fun g =>
    match findGroup original_groups g.name with
    | none => none
    | some old => if groupEq old g then none else some (mkModified old g))
  let deleted_group_names := (original_groups.filter
    (fun g => (findGroup current_groups g.name).isNone)).map (fun g => g.name)
  let original_rules := original_config.rules
  let current_rules := current_custom.rules
  let added_rules := current_rules.filter (fun r => decide (r ∉ original_rules))
  let deleted_rules := original_rules.filter (fun r => decide (r ∉ current_rules))
  let modified_rules :=
    if original_rules ≠ current_rules ∧ added_rules = [] ∧ deleted_rules = []
    then [⟨original_rules, current_rules⟩]
    else ([] : List Reorder)
  { proxy_groups := ⟨added_groups, modified_groups, deleted_group_names⟩
    rules := ⟨added_rules, modified_rules, deleted_rules⟩ }

/-- Step 1 of the group merge (`apply_modification`, lines 430-434):
append every added group whose name is not already present; the name set
is computed once, before the loop. -/
def applyAdded (added : List Group) (gs : List Group) : List Group :=
  gs ++ added.filter (fun a => decide (a.name ∉ gs.map (fun g => g.name)))

/-- The index the stale map `{g["name"]: i for i, g in enumerate(...)}`
holds for a name: the last position carrying it (later dict entries
overwrite earlier ones). -/
def lastIdx : List Group → String → Option Nat
  | [], _ => none
  | g :: gs, n =>
    match lastIdx gs n with
    | some i => some (i + 1)
    | none => if g.name = n then some 0 else none

/-- Python `current_group[field] = value`: overwrite the value at an
existing key in place, or append the key. -/
def setField (fs : List (String × Option String)) (k : String)
    (v : Option String) : List (String × Option String) :=
  if fs.any (fun kv => decide (kv.1 = k)) then
    fs.map (fun kv => if kv.1 = k then (k, v) else kv)
  else fs ++ [(k, v)]

/-- Applying one `modified` entry to a group found in the target (lines
446-467): when the entry records proxy-level changes, the proxies become
`list((set(proxies) | added) - deleted)`; every recorded field change
overwrites the field with its `new` value. -/
def applyModEntry (g : Group) (m : ModifiedGroup) : Group :=
  let proxies :=
    if m.added_proxies ≠ [] ∨ m.deleted_proxies ≠ [] then
      ((g.proxies ++ m.added_proxies).dedup).filter
        (fun p => decide (p ∉ m.deleted_proxies))
    else g.proxies
  let fields := m.fields_changed.foldl
    (fun fs kc => setField fs kc.1 kc.2.new) g.fields
  { name := g.name, proxies := proxies, fields := fields }

/-- One iteration of the `modified` loop: look the entry's name up in the
stale index map; update the group at that index, or append the entry's
recorded `new` record when the name is absent. -/
def applyModifiedStep (idx : String → Option Nat) (gs : List Group)
    (m : ModifiedGroup) : List Group :=
  match idx m.name with
  | some i =>
    match gs[i]? with
    | some g => gs.set i (applyModEntry g m)
    | none => gs
  | none => gs ++ [m.new]

/-- Step 2 of the group merge (lines 437-470): the name-to-index map is
built once, then every `modified` entry is processed against it. -/
def applyModified (ms : List ModifiedGroup) (gs : List Group) : List Group :=
  ms.foldl (applyModifiedStep (lastIdx gs)) gs

/-- Step 3 of the group merge (lines 473-478): drop every group whose name
is in the `deleted` set. -/
def applyDeleted (deleted : List String) (gs : List Group) : List Group :=
  gs.filter (fun g => decide (g.name ∉ deleted))

/-- The rules merge (lines 484-503): append the added rules not already
present (the existing-rule set is computed once, before the loop), then
let every reorder entry overwrite the whole list, then drop the deleted
rule strings. -/
def applyRules (added : List String) (modified : List Reorder)
    (deleted : List String) (rules : List String) : List String :=
  let rules1 := rules ++ added.filter (fun r => decide (r ∉ rules))
  let rules2 := modified.foldl (fun _ e => e.new_rules) rules1
  rules2.filter (fun r => decide (r ∉ deleted))

/-- The pure core of `ConfigManager.apply_modification` (lines 402-509):
`custom` is the snapshot loaded by `load_custom()`.  Lines 421-422 test the
misspelled key `"proxy_groups"` on `custom`, which a loaded snapshot never
has (its key is `"proxy-groups"`), so the group list is reset to `[]`
before the three group steps run; the correctly spelled guard for
`"rules"` leaves the rule list intact. -/
def apply_modification (p : Patch) (custom : Snapshot) : Snapshot :=
  { groups := applyDeleted p.proxy_groups.deleted
      (applyModified p.proxy_groups.modified
        (applyAdded p.proxy_groups.added ([] : List Group)))
    rules := applyRules p.rules.added p.rules.modified p.rules.deleted
      custom.rules }

/-- `ConfigManager.move_rule` (lines 550-564).  The Python tuple swap
`rules[index], rules[index - 1] = rules[index - 1], rules[index]`
raises an uncaught `IndexError` when `index` is out of range, modelled as
the `.error` case; in the `down` branch the condition
`index < len(rules) - 1` already keeps both positions in range. -/
def move_rule (rules : List String) (index : Nat) (direction : Direction) :
    Except String (OpResult × List String) :=
  if direction = Direction.up ∧ 0 < index then
    if index < rules.length then
      Except.ok (⟨true, "移动成功"⟩,
        (rules.set index (rules.getD (index - 1) "")).set (index - 1)
          (rules.getD index ""))
    else Except.error "list index out of range"
  else if direction = Direction.down ∧ index + 1 < rules.length then
    Except.ok (⟨true, "移动成功"⟩,
      (rules.set index (rules.getD (index + 1) "")).set (index + 1)
        (rules.getD index ""))
  else Except.ok (⟨false, "无法移动"⟩, rules)

/-! ## Helper lemmas -/

theorem findGroup_eq_none {gs : List Group} {n : String} :
    findGroup gs n = none ↔ ∀ g ∈ gs, g.name ≠ n := by
  simp [findGroup, List.find?_eq_none]

theorem findGroup_isSome_of_mem {gs : List Group} {g : Group} (h : g ∈ gs) :
    (findGroup gs g.name).isSome := by
  rw [findGroup, List.find?_isSome]
  exact ⟨g, h, by simp⟩

theorem lastIdx_eq_none {gs : List Group} {n : String} :
    lastIdx gs n = none ↔ ∀ g ∈ gs, g.name ≠ n := by
  induction gs with
  | nil => simp [lastIdx]
  | cons g gs ih =>
    rw [lastIdx]
    cases h : lastIdx gs n with
    | some i =>
      simp only [h]
      constructor
      · intro hfalse
        exact absurd hfalse (by simp)
      · intro hall
        have : lastIdx gs n = none := ih.mpr (fun g' hg' => hall g' (by simp [hg']))
        rw [h] at this
        exact absurd this (by simp)
    | none =>
      have hgs := ih.mp h
      by_cases hg : g.name = n
      · simp [hg]
      · simp only [if_neg hg]
        simp only [List.mem_cons]
        constructor
        · rintro - g' (rfl | hg')
          · exact hg
          · exact hgs g' hg'
        · intro _
          trivial

theorem foldl_applyModifiedStep_none {ms : List ModifiedGroup}
    {idx : String → Option Nat} (h : ∀ m ∈ ms, idx m.name = none) :
    ∀ acc, ms.foldl (applyModifiedStep idx) acc =
      acc ++ ms.map (fun m => m.new) := by
  induction ms with
  | nil => simp
  | cons m ms ih =>
    intro acc
    rw [List.foldl_cons]
    have hstep : applyModifiedStep idx acc m = acc ++ [m.new] := by
      rw [applyModifiedStep, h m (by simp)]
    rw [hstep, ih (fun m' hm' => h m' (by simp [hm']))]
    simp

theorem mem_delta_added {A B : Snapshot} {g : Group} :
    g ∈ (save_modification A B).proxy_groups.added ↔
      g ∈ B.groups ∧ findGroup A.groups g.name = none := by
  simp [save_modification, List.mem_filter, Option.isNone_iff_eq_none]

theorem mem_delta_modified {A B : Snapshot} {m : ModifiedGroup} :
    m ∈ (save_modification A B).proxy_groups.modified ↔
      ∃ g ∈ B.groups, ∃ old, findGroup A.groups g.name = some old ∧
        groupEq old g = false ∧ m = mkModified old g := by
  simp only [save_modification, List.mem_filterMap]
  constructor
  · rintro ⟨g, hg, hf⟩
    cases hF : findGroup A.groups g.name with
    | none => rw [hF] at hf; exact absurd hf (by simp)
    | some old =>
      rw [hF] at hf
      have hf' : (if groupEq old g = true then none
          else some (mkModified old g)) = some m := hf
      by_cases he : groupEq old g = true
      · rw [if_pos he] at hf'
        exact absurd hf' (by simp)
      · rw [if_neg he] at hf'
        have hne : groupEq old g = false := by simpa using he
        exact ⟨g, hg, old, hF, hne, (Option.some.inj hf').symm⟩
  · rintro ⟨g, hg, old, hF, hne, rfl⟩
    refine ⟨g, hg, ?_⟩
    rw [hF]
    show (if groupEq old g = true then none
        else some (mkModified old g)) = some (mkModified old g)
    rw [if_neg (by simp [hne])]

theorem mem_delta_news {A B : Snapshot} {g : Group} :
    g ∈ ((save_modification A B).proxy_groups.modified).map (fun m => m.new) ↔
      g ∈ B.groups ∧ ∃ old, findGroup A.groups g.name = some old ∧
        groupEq old g = false := by
  rw [List.mem_map]
  constructor
  · rintro ⟨m, hm, hnew⟩
    obtain ⟨b, hb, old, hF, hne, rfl⟩ := mem_delta_modified.mp hm
    have : (mkModified old b).new = b := rfl
    rw [this] at hnew
    subst hnew
    exact ⟨hb, old, hF, hne⟩
  · rintro ⟨hg, old, hF, hne⟩
    exact ⟨mkModified old g, mem_delta_modified.mpr ⟨g, hg, old, hF, hne, rfl⟩, rfl⟩

theorem delta_modified_name_found {A B : Snapshot} {m : ModifiedGroup}
    (hm : m ∈ (save_modification A B).proxy_groups.modified) :
    ∃ old, findGroup A.groups m.name = some old := by
  obtain ⟨g, _, old, hF, _, rfl⟩ := mem_delta_modified.mp hm
  exact ⟨old, hF⟩

theorem mem_delta_deleted {A B : Snapshot} {n : String} :
    n ∈ (save_modification A B).proxy_groups.deleted ↔
      ∃ a ∈ A.groups, findGroup B.groups a.name = none ∧ a.name = n := by
  simp only [save_modification, List.mem_map, List.mem_filter,
    Option.isNone_iff_eq_none]
  constructor
  · rintro ⟨a, ⟨h1, h2⟩, h3⟩
    exact ⟨a, h1, h2, h3⟩
  · rintro ⟨a, h1, h2, h3⟩
    exact ⟨a, ⟨h1, h2⟩, h3⟩

theorem apply_delta_groups (A B : Snapshot) :
    (apply_modification (save_modification A B) A).groups =
      (save_modification A B).proxy_groups.added ++
        ((save_modification A B).proxy_groups.modified).map (fun m => m.new) := by
  have h1 : applyAdded (save_modification A B).proxy_groups.added ([] : List Group) =
      (save_modification A B).proxy_groups.added := by
    simp [applyAdded]
  have h2 : applyModified (save_modification A B).proxy_groups.modified
      ((save_modification A B).proxy_groups.added) =
      (save_modification A B).proxy_groups.added ++
        ((save_modification A B).proxy_groups.modified).map (fun m => m.new) := by
    rw [applyModified]
    apply foldl_applyModifiedStep_none
    intro m hm
    rw [lastIdx_eq_none]
    intro a ha hname
    obtain ⟨old, hF⟩ := delta_modified_name_found hm
    have hnone : findGroup A.groups a.name = none := (mem_delta_added.mp ha).2
    rw [hname, hF] at hnone
    exact absurd hnone (by simp)
  have h3 : applyDeleted (save_modification A B).proxy_groups.deleted
      ((save_modification A B).proxy_groups.added ++
        ((save_modification A B).proxy_groups.modified).map (fun m => m.new)) =
      (save_modification A B).proxy_groups.added ++
        ((save_modification A B).proxy_groups.modified).map (fun m => m.new) := by
    rw [applyDeleted, List.filter_eq_self]
    intro g hg
    simp only [decide_eq_true_eq]
    intro hdel
    obtain ⟨a, _, hBnone, han⟩ := mem_delta_deleted.mp hdel
    have hgB : g ∈ B.groups := by
      rcases List.mem_append.mp hg with h | h
      · exact (mem_delta_added.mp h).1
      · exact (mem_delta_news.mp h).1
    have hsome := findGroup_isSome_of_mem hgB
    rw [← han, hBnone] at hsome
    exact absurd hsome (by simp)
  show applyDeleted _ (applyModified _ (applyAdded _ _)) = _
  rw [h1, h2, h3]

theorem applyRules_roundtrip (O C : List String) (r : String) :
    r ∈ applyRules (C.filter (fun r => decide (r ∉ O)))
        (if O ≠ C ∧ C.filter (fun r => decide (r ∉ O)) = [] ∧
            O.filter (fun r => decide (r ∉ C)) = []
          then [⟨O, C⟩] else ([] : List Reorder))
        (O.filter (fun r => decide (r ∉ C))) O ↔ r ∈ C := by
  by_cases hc : O ≠ C ∧ C.filter (fun r => decide (r ∉ O)) = [] ∧
      O.filter (fun r => decide (r ∉ C)) = []
  · rw [if_pos hc, applyRules]
    simp only [List.foldl_cons, List.foldl_nil]
    rw [hc.2.2]
    simp
  · rw [if_neg hc, applyRules]
    simp only [List.foldl_nil]
    rw [List.filter_filter]
    simp only [Bool.and_self]
    simp only [List.mem_filter, List.mem_append, decide_eq_true_eq]
    constructor
    · rintro ⟨h1 | h1, h2⟩
      · by_contra hC
        exact h2 ⟨h1, hC⟩
      · exact h1.1
    · intro hC
      constructor
      · by_cases hO : r ∈ O
        · exact Or.inl hO
        · exact Or.inr ⟨hC, hO⟩
      · rintro ⟨-, hnC⟩
        exact hnC hC

/-! ## Claim theorems -/

/-- C1 (counterexample).  The round-trip law fails as stated: with
base rules `["r1", "r2"]` and working rules `["r2", "r1", "r3"]` (an order
change together with an addition), applying the computed patch back to the
base yields rules `["r1", "r2", "r3"]`, not the working sequence. -/
theorem c1_roundtrip_counterexample :
    apply_modification (save_modification ⟨[], ["r1", "r2"]⟩ ⟨[], ["r2", "r1", "r3"]⟩)
        ⟨[], ["r1", "r2"]⟩ ≠ ⟨[], ["r2", "r1", "r3"]⟩ := by
  decide

/-- C1 (amended).  Applying the patch computed between snapshots A and B to
A yields: as groups, exactly the groups of B that are new relative to A or
whose record differs from A's record of the same name (unchanged shared
groups are dropped, because `apply_modification` resets the group list
before merging — the misspelled-key guard of line 421); as rules, a list
with exactly B's rule membership (the exact sequence is not reproduced in
general). -/
theorem c1_roundtrip_amended (A B : Snapshot) :
    (∀ g : Group,
      g ∈ (apply_modification (save_modification A B) A).groups ↔
        g ∈ B.groups ∧ ∀ old, findGroup A.groups g.name = some old →
          groupEq old g = false) ∧
    (∀ r : String,
      r ∈ (apply_modification (save_modification A B) A).rules ↔ r ∈ B.rules) := by
  constructor
  · intro g
    rw [apply_delta_groups, List.mem_append, mem_delta_added, mem_delta_news]
    cases hF : findGroup A.groups g.name with
    | none => simp [hF]
    | some old => simp [hF]
  · intro r
    exact applyRules_roundtrip A.rules B.rules r

/-- C2 (code bug, evaluated).  `apply_modification` checks the misspelled
key `"proxy_groups"` on the loaded snapshot (whose key is
`"proxy-groups"`), so it resets the group list to `[]` before merging: a
target group whose name appears in no bucket of an entirely empty patch is
nevertheless destroyed. -/
theorem c2_frame_violated_by_reset :
    apply_modification ⟨⟨[], [], []⟩, ⟨[], [], []⟩⟩
        ⟨[⟨"G", ["p1"], [("f", some "v")]⟩], ["r"]⟩ =
      ⟨[], ["r"]⟩ := by
  decide

/-- C3 (code bug, evaluated).  A group present in both snapshots whose
records differ only in the order of the `proxies` list produces a
`modified` entry whose `added_proxies`, `deleted_proxies` and
`fields_changed` are all empty: the differ emits an empty delta, which the
specification mandates must never be emitted. -/
theorem c3_empty_delta_emitted :
    ((save_modification ⟨[⟨"A", ["p1", "p2"], []⟩], []⟩
        ⟨[⟨"A", ["p2", "p1"], []⟩], []⟩).proxy_groups.modified).map
      (fun m => (m.name, m.added_proxies, m.deleted_proxies, m.fields_changed)) =
      [("A", [], [], [])] := by
  decide

/-- C4 (counterexample).  A reorder entry is emitted although the multisets
of rule strings differ: base rules `["r", "r"]` and working rules `["r"]`
have equal string sets (so no added and no deleted rules) but are not
permutations of each other, and the differ still records a reorder. -/
theorem c4_reorder_counterexample :
    (save_modification ⟨[], ["r", "r"]⟩ ⟨[], ["r"]⟩).rules.modified ≠ [] ∧
      ¬ (["r", "r"] : List String).Perm ["r"] := by
  decide

/-- C4 (amended).  A reorder entry is present only when the SETS of rule
strings of base and working are equal (not their multisets), the two
sequences differ, and the patch's added and deleted rule lists are both
empty. -/
theorem c4_reorder_amended (A B : Snapshot)
    (h : (save_modification A B).rules.modified ≠ []) :
    (save_modification A B).rules.added = [] ∧
      (save_modification A B).rules.deleted = [] ∧
      A.rules ≠ B.rules ∧
      ∀ r : String, r ∈ A.rules ↔ r ∈ B.rules := by
  by_cases hc : A.rules ≠ B.rules ∧
      B.rules.filter (fun r => decide (r ∉ A.rules)) = [] ∧
      A.rules.filter (fun r => decide (r ∉ B.rules)) = []
  · have hadded : (save_modification A B).rules.added =
        B.rules.filter (fun r => decide (r ∉ A.rules)) := rfl
    have hdeleted : (save_modification A B).rules.deleted =
        A.rules.filter (fun r => decide (r ∉ B.rules)) := rfl
    refine ⟨hadded ▸ hc.2.1, hdeleted ▸ hc.2.2, hc.1, ?_⟩
    intro r
    have hBA := List.filter_eq_nil_iff.mp hc.2.1
    have hAB := List.filter_eq_nil_iff.mp hc.2.2
    constructor
    · intro hr
      have := hAB r hr
      simpa using this
    · intro hr
      have := hBA r hr
      simpa using this
  · exfalso
    apply h
    show (if A.rules ≠ B.rules ∧ _ ∧ _ then _ else _) = _
    rw [if_neg hc]

/-- C4 (witness). -/
theorem c4_reorder_amended_witness :
    ((save_modification ⟨[], ["a", "b"]⟩ ⟨[], ["b", "a"]⟩).rules.modified ≠ []) ∧
    ((save_modification ⟨[], ["a", "b"]⟩ ⟨[], ["b", "a"]⟩).rules.added = [] ∧
      (save_modification ⟨[], ["a", "b"]⟩ ⟨[], ["b", "a"]⟩).rules.deleted = [] ∧
      (Snapshot.mk [] ["a", "b"]).rules ≠ (Snapshot.mk [] ["b", "a"]).rules ∧
      ∀ r : String, r ∈ (Snapshot.mk [] ["a", "b"]).rules ↔
        r ∈ (Snapshot.mk [] ["b", "a"]).rules) :=
  ⟨by decide, c4_reorder_amended ⟨[], ["a", "b"]⟩ ⟨[], ["b", "a"]⟩ (by decide)⟩

/-- C5 (confirmed).  Group changes are applied add-first, delete-last: the
final step removes every group whose name is in the patch's `deleted` set,
so a name appearing both in `added` and in `deleted` is absent from the
result. -/
theorem c5_delete_after_add (p : Patch) (t : Snapshot) (n : String)
    (_hadd : n ∈ p.proxy_groups.added.map (fun g => g.name))
    (hdel : n ∈ p.proxy_groups.deleted) :
    ∀ g ∈ (apply_modification p t).groups, g.name ≠ n := by
  intro g hg
  have : g ∈ applyDeleted p.proxy_groups.deleted
      (applyModified p.proxy_groups.modified
        (applyAdded p.proxy_groups.added ([] : List Group))) := hg
  rw [applyDeleted, List.mem_filter] at this
  intro hn
  have h2 := this.2
  rw [decide_eq_true_eq] at h2
  exact h2 (hn ▸ hdel)

/-- C5 (witness). -/
theorem c5_delete_after_add_witness :
    ("X" ∈ (Patch.mk ⟨[⟨"X", [], []⟩], [], ["X"]⟩ ⟨[], [], []⟩).proxy_groups.added.map
        (fun g => g.name)) ∧
    ("X" ∈ (Patch.mk ⟨[⟨"X", [], []⟩], [], ["X"]⟩ ⟨[], [], []⟩).proxy_groups.deleted) ∧
    ∀ g ∈ (apply_modification (Patch.mk ⟨[⟨"X", [], []⟩], [], ["X"]⟩ ⟨[], [], []⟩)
        ⟨[], []⟩).groups, g.name ≠ "X" :=
  ⟨by decide, by decide,
    c5_delete_after_add (Patch.mk ⟨[⟨"X", [], []⟩], [], ["X"]⟩ ⟨[], [], []⟩)
      ⟨[], []⟩ "X" (by decide) (by decide)⟩

/-- C6 (confirmed).  Rules are applied add-then-reorder-then-delete: when
the patch carries a single reorder entry, the resulting rule list is the
entry's `new_rules` with the patch's deleted rule strings removed —
whatever the add step appended is discarded by the wholesale overwrite. -/
theorem c6_reorder_overwrite (p : Patch) (t : Snapshot) (e : Reorder)
    (h : p.rules.modified = [e]) :
    (apply_modification p t).rules =
      e.new_rules.filter (fun r => decide (r ∉ p.rules.deleted)) := by
  show applyRules _ _ _ _ = _
  rw [applyRules, h]
  rfl

/-- C6 (witness). -/
theorem c6_reorder_overwrite_witness :
    ((Patch.mk ⟨[], [], []⟩ ⟨["x"], [⟨["a"], ["b", "c"]⟩], ["c"]⟩).rules.modified =
      [⟨["a"], ["b", "c"]⟩]) ∧
    (apply_modification (Patch.mk ⟨[], [], []⟩ ⟨["x"], [⟨["a"], ["b", "c"]⟩], ["c"]⟩)
        ⟨[], ["z"]⟩).rules =
      (Reorder.mk ["a"] ["b", "c"]).new_rules.filter
        (fun r => decide (r ∉ (Patch.mk ⟨[], [], []⟩
          ⟨["x"], [⟨["a"], ["b", "c"]⟩], ["c"]⟩).rules.deleted)) :=
  ⟨rfl, c6_reorder_overwrite
    (Patch.mk ⟨[], [], []⟩ ⟨["x"], [⟨["a"], ["b", "c"]⟩], ["c"]⟩)
    ⟨[], ["z"]⟩ ⟨["a"], ["b", "c"]⟩ rfl⟩

/-- C7 (confirmed).  Applying a patch twice in succession yields the same
proxy-group list (hence the same set) as applying it once.  This holds
trivially in the source: every call of `apply_modification` resets the
group list to `[]` before merging (the misspelled-key guard of line 421),
so both applications rebuild the identical group list from the patch
alone. -/
theorem c7_apply_idempotent_on_groups (p : Patch) (t : Snapshot) :
    (apply_modification p (apply_modification p t)).groups =
      (apply_modification p t).groups := rfl

/-- C8 (counterexample).  `move_rule` indexes the rule list before
validating the index: index 2 with direction `up` on the single-element
list `["a"]` raises an uncaught `IndexError` instead of returning a
structured result. -/
theorem c8_exception_counterexample :
    move_rule ["a"] 2 Direction.up = Except.error "list index out of range" := rfl

/-- C8 (amended).  `move_rule` escapes with an uncaught `IndexError`
exactly when the direction is `up`, the index is positive and the index is
not a valid position of the rule list; in every other case (and in all
other modelled engine operations, which are total functions) a structured
`{success, message}` result is returned. -/
theorem c8_structured_result_amended (rules : List String) (index : Nat)
    (direction : Direction) :
    (∃ e, move_rule rules index direction = Except.error e) ↔
      direction = Direction.up ∧ 0 < index ∧ rules.length ≤ index := by
  rw [move_rule]
  split_ifs with h1 h2 h3
  · constructor
    · rintro ⟨e, he⟩
      exact absurd he (by simp)
    · rintro ⟨-, -, hlen⟩
      exact absurd h2 (by omega)
  · constructor
    · intro _
      exact ⟨h1.1, h1.2, by omega⟩
    · intro _
      exact ⟨"list index out of range", rfl⟩
  · constructor
    · rintro ⟨e, he⟩
      exact absurd he (by simp)
    · rintro ⟨hup, hpos, -⟩
      exact absurd ⟨hup, hpos⟩ h1
  · constructor
    · rintro ⟨e, he⟩
      exact absurd he (by simp)
    · rintro ⟨hup, hpos, -⟩
      exact absurd ⟨hup, hpos⟩ h1

/-- C9 (confirmed).  Moving the rule at index 0 up, or the rule at the last
index down, returns the structured failure `{success: false}` and leaves
the rule list unchanged. -/
theorem c9_boundary_moves (rules : List String) :
    (move_rule rules 0 Direction.up = Except.ok (⟨false, "无法移动"⟩, rules)) ∧
    (rules ≠ [] →
      move_rule rules (rules.length - 1) Direction.down =
        Except.ok (⟨false, "无法移动"⟩, rules)) := by
  constructor
  · rw [move_rule]
    rw [if_neg (by simp), if_neg (by simp)]
  · intro hne
    have hpos : 0 < rules.length := List.length_pos.mpr hne
    rw [move_rule]
    rw [if_neg (by simp), if_neg (by simp; omega)]

/-- C9 (witness). -/
theorem c9_boundary_moves_witness :
    (move_rule ["a", "b"] 0 Direction.up =
      Except.ok (⟨false, "无法移动"⟩, ["a", "b"])) ∧
    ((["a", "b"] : List String) ≠ []) ∧
    (move_rule ["a", "b"] 1 Direction.down =
      Except.ok (⟨false, "无法移动"⟩, ["a", "b"])) :=
  ⟨(c9_boundary_moves ["a", "b"]).1, by decide,
    (c9_boundary_moves ["a", "b"]).2 (by decide)⟩

/-- C10 (confirmed).  In every `modified` entry of a computed patch, every
key of `fields_changed` is a key of the base (old) group record — a field
present only in the working group is never recorded — while a shared group
with unequal records is always classified as modified. -/
theorem c10_fields_changed_keys (A B : Snapshot) :
    (∀ m ∈ (save_modification A B).proxy_groups.modified,
      ∀ kc ∈ m.fields_changed, kc.1 ∈ m.old.fields.map Prod.fst) ∧
    (∀ g ∈ B.groups, ∀ old, findGroup A.groups g.name = some old →
      groupEq old g = false →
      ∃ m ∈ (save_modification A B).proxy_groups.modified, m.name = g.name) := by
  constructor
  · intro m hm kc hkc
    obtain ⟨g, -, old, -, -, rfl⟩ := mem_delta_modified.mp hm
    have hfc : (mkModified old g).fields_changed =
        old.fields.filterMap (fun kv =>
          if pyGet g.fields kv.1 = kv.2 then none
          else some (kv.1, ⟨kv.2, pyGet g.fields kv.1⟩)) := rfl
    rw [hfc, List.mem_filterMap] at hkc
    obtain ⟨kv, hkv, hf⟩ := hkc
    by_cases hcond : pyGet g.fields kv.1 = kv.2
    · rw [if_pos hcond] at hf
      exact absurd hf (by simp)
    · rw [if_neg hcond] at hf
      have : kc.1 = kv.1 := by
        have := (Option.some.injEq _ _ ▸ hf)
        rw [← this]
      rw [this]
      exact List.mem_map.mpr ⟨kv, hkv, rfl⟩
  · intro g hg old hF hne
    exact ⟨mkModified old g, mem_delta_modified.mpr ⟨g, hg, old, hF, hne, rfl⟩, rfl⟩

/-- C10 (witness). -/
theorem c10_fields_changed_keys_witness :
    (mkModified ⟨"A", [], [("f", some "1")]⟩
        ⟨"A", [], [("f", some "2"), ("g", some "3")]⟩ ∈
      (save_modification ⟨[⟨"A", [], [("f", some "1")]⟩], []⟩
        ⟨[⟨"A", [], [("f", some "2"), ("g", some "3")]⟩], []⟩).proxy_groups.modified) ∧
    (("f", FieldChange.mk (some "1") (some "2")) ∈
      (mkModified ⟨"A", [], [("f", some "1")]⟩
        ⟨"A", [], [("f", some "2"), ("g", some "3")]⟩).fields_changed) ∧
    (("f", FieldChange.mk (some "1") (some "2")).1 ∈
      (mkModified ⟨"A", [], [("f", some "1")]⟩
        ⟨"A", [], [("f", some "2"), ("g", some "3")]⟩).old.fields.map Prod.fst) :=
  ⟨by decide, by decide,
    (c10_fields_changed_keys ⟨[⟨"A", [], [("f", some "1")]⟩], []⟩
        ⟨[⟨"A", [], [("f", some "2"), ("g", some "3")]⟩], []⟩).1
      (mkModified ⟨"A", [], [("f", some "1")]⟩
        ⟨"A", [], [("f", some "2"), ("g", some "3")]⟩)
      (by decide) ("f", FieldChange.mk (some "1") (some "2")) (by decide)⟩

end ClashManager
